import Mathlib

/-!
Shallow embedding of the outbound request-admission governor of the
3commas Go client (rate-limit layer: `fixedWindowLimiter`, `rlEngine`,
`rateLimitDoer`, `parseRetryAfter`, `WithThreeCommasRateLimits`).

Modelling conventions:
* Time instants and durations are integers, in seconds (Go uses
  `time.Time` / `time.Duration` in nanoseconds; every constant in this
  code is a whole number of seconds, so seconds lose nothing).
  The Go zero `time.Time` is the integer 0.
* The block map `map[string]time.Time` is an association list; a Go map
  read of a missing key yields the zero value 0 = zero time.
* Blocking waits are modelled by schedules: each loop iteration of a Go
  wait is driven by one `(now, cancelled)` pair, where `now` is the value
  of `time.Now()` observed in that iteration and `cancelled` records
  whether the context's Done channel fired during that iteration's sleep.
  A wait that exhausts its schedule is `none` (still sleeping; never
  observed to return).
* Concurrency: every mutation of limiter state and of the block map is
  performed under the component's mutex, so any concurrent execution is
  some interleaving in which the critical sections form a sequence with
  nondecreasing `time.Now()` values.  The trace semantics below
  (`admissions`) quantifies over exactly those sequences.
-/

namespace ThreeCommas

/-- Subscription tier `PlanTier` from the source: the 3commas subscription tier. -/
inductive PlanTier where
  | planStarter
  | planPro
  | planExpert
  deriving DecidableEq, Repr

/-- State of `fixedWindowLimiter`: window size, limit and the
mutex-protected `windowStart`/`count` fields. -/
structure FWState where
  windowSize : Int
  limit : Nat
  windowStart : Int
  count : Nat
  deriving DecidableEq, Repr

/-- Constructor `newFixedWindowLimiter`: Go zero values for `windowStart` (zero time)
and `count`. -/
def newFixedWindowLimiter (windowSize : Int) (limit : Nat) : FWState :=
  { windowSize := windowSize, limit := limit, windowStart := 0, count := 0 }

/-- Go `now.Truncate(w)`: round `now` down to the nearest multiple of `w`
counted from the zero time (Go rounds down since the zero time; with
`0 < w`, `Int` division `/` is the floor, so `w * (now / w)` is that
multiple). -/
def truncTo (w now : Int) : Int :=
  w * (now / w)

/-- One pass of the critical section of `fixedWindowLimiter.Wait`
(lines 46-63 of the source): align `now` to the window boundary, reset
the counter when a new window has started, then grant (and count) iff
`count < limit`.  Returns the updated state and whether the request was
admitted. -/
def waitCheck (s : FWState) (now : Int) : FWState × Bool :=
  let cws := truncTo s.windowSize now
  let s1 := if s.windowStart < cws
    then { s with windowStart := cws, count := 0 }
    else s
  if s1.count < s1.limit then ({ s1 with count := s1.count + 1 }, true)
  else (s1, false)

/-- Result of one whole iteration of the `Wait` loop: either the request
is admitted, or the limiter decides to sleep until
`windowStart + windowSize` (the `nextWindow` of the source) and retry. -/
inductive WaitStep where
  | granted (s : FWState)
  | sleepUntil (s : FWState) (t : Int)
  deriving DecidableEq, Repr

/-- One iteration of `fixedWindowLimiter.Wait`: run the check; on failure
the loop computes `nextWindow := windowStart + windowSize` and sleeps
until then. -/
def waitStep (s : FWState) (now : Int) : WaitStep :=
  match waitCheck s now with
  | (s1, true) => .granted s1
  | (s1, false) => .sleepUntil s1 (s1.windowStart + s1.windowSize)

/-- Outcome of a full `fixedWindowLimiter.Wait` call. -/
inductive FWWaitResult where
  | admitted (s : FWState) (at_ : Int)
  | cancelled (s : FWState)
  | sleeping (s : FWState)
  deriving DecidableEq, Repr

/-- Method `fixedWindowLimiter.Wait`, driven by a schedule of loop iterations.
Each `(now, canc)` entry is one pass of the `for` loop: the check runs at
`now`; when it fails, the goroutine sleeps (the `waitDuration <= 0`
branch retries immediately without consulting the context) and `canc`
tells whether `ctx.Done()` fired before the timer. -/
def fwWait (s : FWState) : List (Int × Bool) → FWWaitResult
  | [] => .sleeping s
  | (now, canc) :: rest =>
    match waitStep s now with
    | .granted s1 => .admitted s1 now
    | .sleepUntil s1 t =>
      if t ≤ now then fwWait s1 rest
      else if canc then .cancelled s1
      else fwWait s1 rest

/-- Function `tierLimiterForPlan` from the source: 5/50/120 requests per
one-minute window. -/
def tierLimiterForPlan : PlanTier → FWState
  | .planStarter => newFixedWindowLimiter 60 5
  | .planPro => newFixedWindowLimiter 60 50
  | .planExpert => newFixedWindowLimiter 60 120

/-- The admission trace of a sequence of critical-section passes: thread
the limiter state left to right and collect the `now` of every pass the
limiter admitted.  Any concurrent history of `Wait` calls produces such a
sequence (the mutex serialises the passes and `time.Now()` is
nondecreasing along them). -/
def admissions (s : FWState) : List Int → List Int
  | [] => []
  | t :: ts =>
    match waitCheck s t with
    | (s1, true) => t :: admissions s1 ts
    | (s1, false) => admissions s1 ts

/-- Number of timestamps of `l` lying in the aligned window starting at
`k` of length `w`, i.e. whose truncation to `w` equals `k`. -/
def countWindow (w k : Int) (l : List Int) : Nat :=
  (l.filter (fun t => truncTo w t == k)).length

/-- The block map `rlEngine.blocked : map[string]time.Time`, as an
association list from governance key to blocked-until instant. -/
abbrev BlockMap := List (String × Int)

/-- Lookup in the block map (the `cur, ok := e.blocked[key]` form). -/
def lookupBlock : BlockMap → String → Option Int
  | [], _ => none
  | (k, v) :: rest, key => if k = key then some v else lookupBlock rest key

/-- Go `delete(e.blocked, key)`. -/
def removeBlock (m : BlockMap) (key : String) : BlockMap :=
  m.filter (fun p => p.1 ≠ key)

/-- Assignment `e.blocked[key] = v`. -/
def setBlock (m : BlockMap) (key : String) (v : Int) : BlockMap :=
  (key, v) :: removeBlock m key

/-- Method `rlEngine.backoff(key, d)`: no-op when `d <= 0`; otherwise store
`deadline := now + d` unless the key already holds a later-or-equal
deadline (`!ok || deadline.After(cur)`). -/
def backoff (m : BlockMap) (now : Int) (key : String) (d : Int) : BlockMap :=
  if d ≤ 0 then m
  else
    let deadline := now + d
    match lookupBlock m key with
    | none => setBlock m key deadline
    | some cur => if cur < deadline then setBlock m key deadline else m

/-- Method `rlEngine.waitBlocked(ctx, key)`, driven by a schedule of loop
iterations.  A Go map read of a missing key yields the zero time, hence
the `getD 0`; `until.IsZero()` returns nil at once; a deadline at or
before `now` is deleted and nil returned; otherwise the goroutine sleeps
and `canc` tells whether the context fired first.  The result is the
final map together with `true` for nil (unblocked) and `false` for
`ctx.Err()`; `none` when the schedule ends mid-sleep. -/
def waitBlocked (m : BlockMap) (key : String) :
    List (Int × Bool) → Option (BlockMap × Bool)
  | [] => none
  | (now, canc) :: rest =>
    let u := (lookupBlock m key).getD 0
    if u = 0 then some (m, true)
    else if u - now ≤ 0 then some (removeBlock m key, true)
    else if canc then some (m, false)
    else waitBlocked m key rest

/-- The fields of a `routeLimiter` the observation policy reads: its
`name` key and its `mitigation` duration. -/
structure Route where
  name : String
  mitigation : Int
  deriving DecidableEq, Repr

/-- The `threeCommasRoutes()` table restricted to the observed fields. -/
def threeCommasRoutes : List Route :=
  [ { name := "deals_list", mitigation := 60 },
    { name := "deal_show", mitigation := 60 },
    { name := "smart_trades", mitigation := 10 } ]

/-- A `Retry-After` header value after Go's two parsing attempts:
absent/empty, an integer (`strconv.Atoi` succeeded), an HTTP date
(`http.ParseTime` succeeded, giving an absolute instant), or a string
neither parser accepts. -/
inductive RetryAfterHeader where
  | absent
  | intVal (secs : Int)
  | dateVal (when_ : Int)
  | unparseable
  deriving DecidableEq, Repr

/-- Function `parseRetryAfter(v)`: empty gives 0; an integer gives `secs` seconds
when positive; an HTTP date gives `time.Until(when)` when positive;
everything else gives 0. -/
def parseRetryAfter (now : Int) : RetryAfterHeader → Int
  | .absent => 0
  | .intVal secs => if 0 < secs then secs else 0
  | .dateVal when_ => if 0 < when_ - now then when_ - now else 0
  | .unparseable => 0

/-- The block duration determined by the 429 arm of `rateLimitDoer.Do`:
start from the 5-minute default, replace it by the matched route's
mitigation, and let a positive parsed `Retry-After` override both. -/
def determineBlock (now : Int) (matched : Option Route)
    (ra : RetryAfterHeader) : Int :=
  let block := match matched with
    | some r => r.mitigation
    | none => 5 * 60
  let raD := parseRetryAfter now ra
  if 0 < raD then raD else block

/-- The observe-and-react `switch` of `rateLimitDoer.Do`: on 429 block
the tier key and, when a route matched, also the route key, both with the
determined duration; on 418 block the tier key for 10 minutes; any other
status mutates nothing. -/
def observe (m : BlockMap) (now : Int) (matched : Option Route)
    (status : Nat) (ra : RetryAfterHeader) : BlockMap :=
  if status = 429 then
    let block := determineBlock now matched ra
    let m1 := backoff m now "tier" block
    match matched with
    | some r => backoff m1 now r.name block
    | none => m1
  else if status = 418 then
    backoff m now "tier" (10 * 60)
  else m

/-- The governor state a `Do` call touches: the block map, the tier
limiter and (when a route matches) that route's limiter. -/
structure GovState where
  blocked : BlockMap
  tier : FWState
  routeLim : FWState
  deriving DecidableEq, Repr

/-- Everything one `Do` call consumes: the matched route (`match` is
called on an immutable table, so every call yields the same result),
one wait schedule per wait point, the transport outcome (`Except` error
or status code plus `Retry-After` header) and the `time.Now()` of the
observation step. -/
structure DoInput where
  matched : Option Route
  tierBlockSched : List (Int × Bool)
  routeBlockSched : List (Int × Bool)
  tierLimSched : List (Int × Bool)
  routeLimSched : List (Int × Bool)
  transport : Except Unit (Nat × RetryAfterHeader)
  obsNow : Int
  deriving Repr

/-- What a modelled `Do` call returns. -/
inductive DoRes where
  | cancelled
  | transportErr
  | response (status : Nat)
  | sleeping
  deriving DecidableEq, Repr

/-- Result record of a modelled `Do` call: the final governor state, the
block map at the instant the request was handed to the transport (`none`
when it never was), and the returned value. -/
structure DoOut where
  final : GovState
  sentBlocked : Option BlockMap
  res : DoRes
  deriving Repr

/-- The send-and-observe tail of `Do`: hand the request to the base
transport with block map `m2` in force; on a transport error return it
with no observation; on a response run the observe `switch`. -/
def doSend (m2 : BlockMap) (s s2 : FWState) (inp : DoInput) : DoOut :=
  match inp.transport with
  | .error _ => ⟨⟨m2, s, s2⟩, some m2, .transportErr⟩
  | .ok (status, ra) =>
    ⟨⟨observe m2 inp.obsNow inp.matched status ra, s, s2⟩, some m2,
      .response status⟩

/-- Wait point 4 of `Do`: the matched route's limiter (skipped when no
route matched). -/
def doStage4 (m2 : BlockMap) (s : FWState) (g : GovState) (inp : DoInput) :
    DoOut :=
  match inp.matched with
  | none => doSend m2 s g.routeLim inp
  | some _ =>
    match fwWait g.routeLim inp.routeLimSched with
    | .sleeping s2 => ⟨⟨m2, s, s2⟩, none, .sleeping⟩
    | .cancelled s2 => ⟨⟨m2, s, s2⟩, none, .cancelled⟩
    | .admitted s2 _ => doSend m2 s s2 inp

/-- Wait point 3 of `Do`: the tier limiter. -/
def doStage3 (m2 : BlockMap) (g : GovState) (inp : DoInput) : DoOut :=
  match fwWait g.tier inp.tierLimSched with
  | .sleeping s => ⟨{ g with blocked := m2, tier := s }, none, .sleeping⟩
  | .cancelled s => ⟨{ g with blocked := m2, tier := s }, none, .cancelled⟩
  | .admitted s _ => doStage4 m2 s g inp

/-- Wait point 2 of `Do`: the matched route's block (skipped when no
route matched). -/
def doStage2 (m1 : BlockMap) (g : GovState) (inp : DoInput) : DoOut :=
  match inp.matched with
  | none => doStage3 m1 g inp
  | some r =>
    match waitBlocked m1 r.name inp.routeBlockSched with
    | none => ⟨{ g with blocked := m1 }, none, .sleeping⟩
    | some (m2, false) => ⟨{ g with blocked := m2 }, none, .cancelled⟩
    | some (m2, true) => doStage3 m2 g inp

/-- Method `rateLimitDoer.Do`: wait out the tier block, then the matched
route's block, then the tier limiter, then the matched route's limiter;
send; observe the response.  Each wait that returns `ctx.Err()` aborts
the call before the send. -/
def doModel (g : GovState) (inp : DoInput) : DoOut :=
  match waitBlocked g.blocked "tier" inp.tierBlockSched with
  | none => ⟨g, none, .sleeping⟩
  | some (m1, false) => ⟨{ g with blocked := m1 }, none, .cancelled⟩
  | some (m1, true) => doStage2 m1 g inp

/-- Field `clientConfig.planTier` as `New3CommasClient` initialises it before
applying any option: `PlanExpert`. -/
def newClientDefaultPlanTier : PlanTier := .planExpert

/-- The tier chosen by `WithThreeCommasRateLimits(tier ...PlanTier)`:
the first variadic argument when given, else `PlanExpert`. -/
def withThreeCommasRateLimitsTier (tier : List PlanTier) : PlanTier :=
  match tier with
  | [] => .planExpert
  | t :: _ => t

/-- The tier limiter of `newRLEngine(t)`. -/
def newRLEngineTier (t : PlanTier) : FWState := tierLimiterForPlan t

/-- Key `key` is blocked at instant `now`: the map holds a deadline that
`waitBlocked` would still wait on (nonzero — zero time is Go's absent
sentinel — and strictly in the future). -/
def isBlockedAt (m : BlockMap) (key : String) (now : Int) : Bool :=
  match lookupBlock m key with
  | some u => !(u == 0) && decide (now < u)
  | none => false

/-- Relation: `m'` differs from `m` at most by dropped entries: every key either
keeps its deadline or is gone (lazy eviction). -/
def evictionOnly (m m' : BlockMap) : Prop :=
  ∀ k, lookupBlock m' k = lookupBlock m k ∨ lookupBlock m' k = none

/-- Both block-map waits of `Do` completed with nil, leaving map `m2`. -/
def blocksPassed (g : GovState) (inp : DoInput) (m2 : BlockMap) : Prop :=
  ∃ m1, waitBlocked g.blocked "tier" inp.tierBlockSched = some (m1, true) ∧
    ((inp.matched = none ∧ m2 = m1) ∨
      ∃ r, inp.matched = some r ∧
        waitBlocked m1 r.name inp.routeBlockSched = some (m2, true))

/-- The context was cancelled during one of the four wait points of `Do`
(each later point qualified by the earlier ones having completed, since
the waits are strictly sequential). -/
def cancelSignal (g : GovState) (inp : DoInput) : Prop :=
  (∃ m1, waitBlocked g.blocked "tier" inp.tierBlockSched = some (m1, false)) ∨
  (∃ m1 r m2, waitBlocked g.blocked "tier" inp.tierBlockSched = some (m1, true) ∧
    inp.matched = some r ∧
    waitBlocked m1 r.name inp.routeBlockSched = some (m2, false)) ∨
  (∃ m2, blocksPassed g inp m2 ∧
    ∃ s, fwWait g.tier inp.tierLimSched = .cancelled s) ∨
  (∃ m2, blocksPassed g inp m2 ∧
    (∃ s t, fwWait g.tier inp.tierLimSched = .admitted s t) ∧
    (∃ r, inp.matched = some r) ∧
    ∃ s2, fwWait g.routeLim inp.routeLimSched = .cancelled s2)

/-! ### Block-map lemmas -/

theorem lookupBlock_removeBlock (m : BlockMap) (key k : String) :
    lookupBlock (removeBlock m key) k =
      if k = key then none else lookupBlock m k := by
  induction m with
  | nil => simp [removeBlock, lookupBlock]
  | cons p rest ih =>
    obtain ⟨a, v⟩ := p
    by_cases hpk : a = key
    · have hdrop : removeBlock ((a, v) :: rest) key = removeBlock rest key := by
        simp [removeBlock, hpk]
      rw [hdrop, ih]
      by_cases hk : k = key
      · simp [hk]
      · have hp : a ≠ k := fun h => hk (h ▸ hpk)
        simp [hk, lookupBlock, hp]
    · have hkeep :
          removeBlock ((a, v) :: rest) key = (a, v) :: removeBlock rest key := by
        simp [removeBlock, hpk]
      rw [hkeep]
      by_cases hpkk : a = k
      · have hk : k ≠ key := fun h => hpk (h ▸ hpkk)
        simp [lookupBlock, hpkk, hk]
      · simp [lookupBlock, hpkk, ih]

theorem lookupBlock_setBlock_self (m : BlockMap) (key : String) (v : Int) :
    lookupBlock (setBlock m key v) key = some v := by
  simp [setBlock, lookupBlock]

theorem lookupBlock_setBlock_ne (m : BlockMap) (key k : String) (v : Int)
    (h : k ≠ key) : lookupBlock (setBlock m key v) k = lookupBlock m k := by
  have h' : key ≠ k := fun hh => h hh.symm
  simp [setBlock, lookupBlock, h', lookupBlock_removeBlock, h]

theorem backoff_nonpos (m : BlockMap) (now : Int) (key : String) (d : Int)
    (h : d ≤ 0) : backoff m now key d = m := by
  simp [backoff, h]

theorem lookupBlock_backoff_ne (m : BlockMap) (now : Int) (key k : String)
    (d : Int) (h : k ≠ key) :
    lookupBlock (backoff m now key d) k = lookupBlock m k := by
  unfold backoff
  split
  · rfl
  · cases hcur : lookupBlock m key with
    | none => simpa using lookupBlock_setBlock_ne m key k (now + d) h
    | some cur =>
      simp only [hcur]
      split
      · exact lookupBlock_setBlock_ne m key k (now + d) h
      · rfl

theorem lookupBlock_backoff_self (m : BlockMap) (now : Int) (key : String)
    (d : Int) (h : 0 < d) :
    lookupBlock (backoff m now key d) key =
      some (max ((lookupBlock m key).getD (now + d)) (now + d)) := by
  unfold backoff
  rw [if_neg (by omega)]
  cases hcur : lookupBlock m key with
  | none => simpa using lookupBlock_setBlock_self m key (now + d)
  | some cur =>
    simp only [hcur, Option.getD_some]
    split
    · rename_i hlt
      rw [lookupBlock_setBlock_self]
      congr 1
      omega
    · rename_i hge
      rw [hcur]
      congr 1
      omega

/-! ### Claim theorems -/

/-- C3: a `backoff(key, d)` call with `d ≤ 0` leaves the block map
unchanged; a call with `0 < d` sets the key's deadline to the maximum of
the existing deadline and `now + d` (so a later, shorter block never
shortens an earlier, longer one) and touches no other key. -/
theorem backoff_monotone_extension (m : BlockMap) (now : Int) (key : String)
    (d : Int) :
    (d ≤ 0 → backoff m now key d = m) ∧
    (0 < d →
      lookupBlock (backoff m now key d) key =
        some (max ((lookupBlock m key).getD (now + d)) (now + d)) ∧
      (∀ u, lookupBlock m key = some u →
        ∃ u', lookupBlock (backoff m now key d) key = some u' ∧ u ≤ u') ∧
      ∀ k, k ≠ key → lookupBlock (backoff m now key d) k = lookupBlock m k) := by
  refine ⟨fun h => backoff_nonpos m now key d h, fun h => ⟨?_, ?_, ?_⟩⟩
  · exact lookupBlock_backoff_self m now key d h
  · intro u hu
    refine ⟨max ((lookupBlock m key).getD (now + d)) (now + d), ?_, ?_⟩
    · exact lookupBlock_backoff_self m now key d h
    · rw [hu]
      simp [le_max_iff]
  · exact fun k hk => lookupBlock_backoff_ne m now key k d hk

theorem backoff_monotone_extension_witness :
    backoff [("tier", 200)] 100 "tier" (-5) = [("tier", 200)] ∧
    lookupBlock (backoff [("tier", 200)] 100 "tier" 50) "tier" = some 200 ∧
    lookupBlock (backoff [("tier", 200)] 100 "tier" 500) "tier" = some 600 := by
  refine ⟨(backoff_monotone_extension [("tier", 200)] 100 "tier" (-5)).1
      (by decide), ?_, ?_⟩
  · exact (((backoff_monotone_extension [("tier", 200)] 100 "tier" 50).2
      (by decide)).1).trans (by decide)
  · exact (((backoff_monotone_extension [("tier", 200)] 100 "tier" 500).2
      (by decide)).1).trans (by decide)

/-- C9: when `waitBlocked` observes a stored, genuine (nonzero) deadline
that has already passed, it deletes that key's entry and reports the key
as unblocked in the same iteration. -/
theorem waitBlocked_evicts_expired (m : BlockMap) (key : String) (u now : Int)
    (c : Bool) (rest : List (Int × Bool))
    (hu : lookupBlock m key = some u) (hz : u ≠ 0) (hpast : u ≤ now) :
    waitBlocked m key ((now, c) :: rest) = some (removeBlock m key, true) := by
  unfold waitBlocked
  simp only [hu, Option.getD_some]
  rw [if_neg hz, if_pos (by omega)]

theorem waitBlocked_evicts_expired_witness :
    waitBlocked [("tier", 50), ("deals_list", 90)] "tier" [(60, false)] =
      some ([("deals_list", 90)], true) := by
  exact (waitBlocked_evicts_expired [("tier", 50), ("deals_list", 90)] "tier"
    50 60 false [] (by decide) (by decide) (by decide)).trans (by decide)

/-- C7: a 418 (ban) response makes `Do` apply a 10-minute block to the
tier key only, whether or not a route matched; every other key keeps its
deadline. -/
theorem observe_418_tier_only (m : BlockMap) (now : Int)
    (matched : Option Route) (ra : RetryAfterHeader) :
    observe m now matched 418 ra = backoff m now "tier" (10 * 60) ∧
    lookupBlock (observe m now matched 418 ra) "tier" =
      some (max ((lookupBlock m "tier").getD (now + 10 * 60))
        (now + 10 * 60)) ∧
    ∀ k, k ≠ "tier" →
      lookupBlock (observe m now matched 418 ra) k = lookupBlock m k := by
  have heq : observe m now matched 418 ra = backoff m now "tier" (10 * 60) := by
    simp [observe]
  refine ⟨heq, ?_, ?_⟩
  · rw [heq]
    exact lookupBlock_backoff_self m now "tier" (10 * 60) (by omega)
  · intro k hk
    rw [heq]
    exact lookupBlock_backoff_ne m now "tier" k (10 * 60) hk

theorem observe_418_tier_only_witness :
    lookupBlock (observe [("smart_trades", 50)] 100 (some ⟨"smart_trades", 10⟩)
      418 .absent) "smart_trades" = some 50 := by
  exact ((observe_418_tier_only [("smart_trades", 50)] 100
    (some ⟨"smart_trades", 10⟩) .absent).2.2 "smart_trades"
    (by decide)).trans (by decide)

/-- C4: the 429 block duration is the `Retry-After` value when present
and parseable as a positive amount (integer seconds, or an HTTP date
strictly in the future taken relative to now); otherwise the matched
route's mitigation, else the 5-minute default.  An HTTP date 30 seconds
in the future yields a 30-second block, not the static mitigation. -/
theorem retry_after_preference (now : Int) (matched : Option Route) :
    (∀ secs, 0 < secs → determineBlock now matched (.intVal secs) = secs) ∧
    (∀ w, now < w → determineBlock now matched (.dateVal w) = w - now) ∧
    (∀ ra, parseRetryAfter now ra ≤ 0 →
      determineBlock now matched ra =
        match matched with
        | some r => r.mitigation
        | none => 5 * 60) ∧
    determineBlock now matched (.dateVal (now + 30)) = 30 := by
  refine ⟨?_, ?_, ?_, ?_⟩
  · intro secs hs
    simp [determineBlock, parseRetryAfter, hs]
  · intro w hw
    have h30 : (0 : Int) < w - now := by omega
    simp [determineBlock, parseRetryAfter, h30]
  · intro ra hra
    simp [determineBlock, if_neg (by omega : ¬ 0 < parseRetryAfter now ra)]
  · have h30 : (0 : Int) < now + 30 - now := by omega
    simp [determineBlock, parseRetryAfter, h30]

theorem retry_after_preference_witness :
    determineBlock 100 (some ⟨"smart_trades", 10⟩) (.intVal 45) = 45 ∧
    determineBlock 100 (some ⟨"smart_trades", 10⟩) (.dateVal 130) = 30 ∧
    determineBlock 100 (some ⟨"smart_trades", 10⟩) .absent = 10 ∧
    determineBlock 100 none .unparseable = 300 := by
  refine ⟨(retry_after_preference 100 (some ⟨"smart_trades", 10⟩)).1 45
      (by decide), ?_, ?_, ?_⟩
  · exact ((retry_after_preference 100 (some ⟨"smart_trades", 10⟩)).2.1 130
      (by decide)).trans (by decide)
  · exact ((retry_after_preference 100 (some ⟨"smart_trades", 10⟩)).2.2.1
      .absent (by decide)).trans (by decide)
  · exact ((retry_after_preference 100 none).2.2.1 .unparseable
      (by decide)).trans (by decide)

/-- C1: on a 429 the determined duration is applied as a block on the
tier key and, when a route matched, also on the route key; when no route
matched only the tier key is touched.  (`0 ≤ now` keeps the stored
deadline away from Go's zero-time sentinel; the duration determined from
the real table is always positive.) -/
theorem observe_429_tier_and_route (m : BlockMap) (now : Int)
    (matched : Option Route) (ra : RetryAfterHeader)
    (hnow : 0 ≤ now) (hb : 0 < determineBlock now matched ra) :
    (∀ r, matched = some r →
      observe m now matched 429 ra =
        backoff (backoff m now "tier" (determineBlock now matched ra)) now
          r.name (determineBlock now matched ra) ∧
      isBlockedAt (observe m now matched 429 ra) "tier" now = true ∧
      isBlockedAt (observe m now matched 429 ra) r.name now = true ∧
      ∀ k, k ≠ "tier" → k ≠ r.name →
        lookupBlock (observe m now matched 429 ra) k = lookupBlock m k) ∧
    (matched = none →
      observe m now matched 429 ra =
        backoff m now "tier" (determineBlock now matched ra) ∧
      isBlockedAt (observe m now matched 429 ra) "tier" now = true ∧
      ∀ k, k ≠ "tier" →
        lookupBlock (observe m now matched 429 ra) k = lookupBlock m k) := by
  have hblocked : ∀ (m' : BlockMap) (key : String),
      isBlockedAt (backoff m' now key (determineBlock now matched ra)) key
        now = true := by
    intro m' key
    rw [isBlockedAt,
      lookupBlock_backoff_self m' now key (determineBlock now matched ra) hb]
    have h1 : now <
        max ((lookupBlock m' key).getD (now + determineBlock now matched ra))
          (now + determineBlock now matched ra) := by
      have := le_max_right
        ((lookupBlock m' key).getD (now + determineBlock now matched ra))
        (now + determineBlock now matched ra)
      omega
    simp [h1]
    omega
  constructor
  · rintro r rfl
    refine ⟨by simp [observe], ?_, ?_, ?_⟩
    · by_cases hrt : r.name = "tier"
      · rw [show observe m now (some r) 429 ra =
            backoff (backoff m now "tier" (determineBlock now (some r) ra)) now
              r.name (determineBlock now (some r) ra) from by simp [observe],
          hrt]
        exact hblocked _ "tier"
      · rw [isBlockedAt, show observe m now (some r) 429 ra =
            backoff (backoff m now "tier" (determineBlock now (some r) ra)) now
              r.name (determineBlock now (some r) ra) from by simp [observe],
          lookupBlock_backoff_ne _ now r.name "tier" _ (fun h => hrt h.symm),
          ← isBlockedAt]
        exact hblocked m "tier"
    · rw [show observe m now (some r) 429 ra =
          backoff (backoff m now "tier" (determineBlock now (some r) ra)) now
            r.name (determineBlock now (some r) ra) from by simp [observe]]
      exact hblocked _ r.name
    · intro k hk hkr
      rw [show observe m now (some r) 429 ra =
          backoff (backoff m now "tier" (determineBlock now (some r) ra)) now
            r.name (determineBlock now (some r) ra) from by simp [observe],
        lookupBlock_backoff_ne _ now r.name k _ hkr,
        lookupBlock_backoff_ne _ now "tier" k _ hk]
  · rintro rfl
    refine ⟨by simp [observe], ?_, ?_⟩
    · rw [show observe m now none 429 ra =
          backoff m now "tier" (determineBlock now none ra) from by
            simp [observe]]
      exact hblocked m "tier"
    · intro k hk
      rw [show observe m now none 429 ra =
          backoff m now "tier" (determineBlock now none ra) from by
            simp [observe],
        lookupBlock_backoff_ne m now "tier" k _ hk]

theorem observe_429_tier_and_route_witness :
    isBlockedAt (observe [] 100 (some ⟨"smart_trades", 10⟩) 429 .absent)
      "tier" 100 = true ∧
    isBlockedAt (observe [] 100 (some ⟨"smart_trades", 10⟩) 429 .absent)
      "smart_trades" 100 = true ∧
    lookupBlock (observe [] 100 none 429 .absent) "smart_trades" = none := by
  refine ⟨((observe_429_tier_and_route [] 100 (some ⟨"smart_trades", 10⟩)
      .absent (by decide) (by decide)).1 ⟨"smart_trades", 10⟩ rfl).2.1,
    ((observe_429_tier_and_route [] 100 (some ⟨"smart_trades", 10⟩)
      .absent (by decide) (by decide)).1 ⟨"smart_trades", 10⟩ rfl).2.2.1, ?_⟩
  exact (((observe_429_tier_and_route [] 100 none .absent (by decide)
    (by decide)).2 rfl).2.2 "smart_trades" (by decide)).trans (by decide)

/-- C10: with no tier specified — `New3CommasClient` applies no
`WithPlanTier` option and `WithThreeCommasRateLimits` receives no
variadic argument — the governor's tier limiter is the Expert one:
120 requests per 60-second window. -/
theorem default_tier_is_expert :
    newClientDefaultPlanTier = .planExpert ∧
    withThreeCommasRateLimitsTier [] = .planExpert ∧
    newRLEngineTier (withThreeCommasRateLimitsTier []) =
      { windowSize := 60, limit := 120, windowStart := 0, count := 0 } ∧
    newRLEngineTier (withThreeCommasRateLimitsTier []) =
      newFixedWindowLimiter 60 120 := by
  exact ⟨rfl, rfl, rfl, rfl⟩

theorem fwWait_cons (s : FWState) (now : Int) (canc : Bool)
    (rest : List (Int × Bool)) :
    fwWait s ((now, canc) :: rest) =
      match waitStep s now with
      | .granted s1 => .admitted s1 now
      | .sleepUntil s1 t =>
        if t ≤ now then fwWait s1 rest
        else if canc then .cancelled s1
        else fwWait s1 rest := rfl

theorem fwWait_cons_sleep (s s1 : FWState) (now t : Int)
    (rest : List (Int × Bool)) (h : waitStep s now = .sleepUntil s1 t) :
    fwWait s ((now, false) :: rest) = fwWait s1 rest := by
  rw [fwWait_cons, h]
  by_cases hle : t ≤ now <;> simp [hle]

/-- C6: `Wait` aligns the window start to a multiple of `windowSize`
counted from the epoch (the greatest such multiple not exceeding `now`);
entering a new window resets the count before the admission check; with
remaining capacity it increments the count and admits at once; otherwise
it sleeps until `windowStart + windowSize` and then re-runs the whole
check on the next iteration instead of assuming one sleep suffices. -/
theorem fixed_window_wait_spec (s : FWState) (now : Int)
    (hw : 0 < s.windowSize) :
    ((∃ j : Int, truncTo s.windowSize now = s.windowSize * j) ∧
      truncTo s.windowSize now ≤ now ∧
      now < truncTo s.windowSize now + s.windowSize) ∧
    (s.windowStart < truncTo s.windowSize now → 0 < s.limit →
      waitCheck s now =
        ({ s with windowStart := truncTo s.windowSize now, count := 1 },
          true)) ∧
    (s.windowStart < truncTo s.windowSize now → s.limit = 0 →
      waitCheck s now =
        ({ s with windowStart := truncTo s.windowSize now, count := 0 },
          false)) ∧
    (¬ s.windowStart < truncTo s.windowSize now → s.count < s.limit →
      waitCheck s now = ({ s with count := s.count + 1 }, true)) ∧
    (¬ s.windowStart < truncTo s.windowSize now → ¬ s.count < s.limit →
      waitCheck s now = (s, false)) ∧
    (∀ s1, waitCheck s now = (s1, false) →
      waitStep s now = .sleepUntil s1 (s1.windowStart + s1.windowSize)) ∧
    (∀ s1 t rest, waitStep s now = .sleepUntil s1 t →
      fwWait s ((now, false) :: rest) = fwWait s1 rest) := by
  have htr := Int.ediv_add_emod now s.windowSize
  have hnn := Int.emod_nonneg now (by omega : s.windowSize ≠ 0)
  have hlt := Int.emod_lt_of_pos now hw
  refine ⟨⟨⟨now / s.windowSize, rfl⟩, ?_, ?_⟩, ?_, ?_, ?_, ?_, ?_, ?_⟩
  · unfold truncTo
    omega
  · unfold truncTo
    omega
  · intro hadv hlim
    simp [waitCheck, hadv, hlim]
  · intro hadv hlim
    simp [waitCheck, hadv, hlim]
  · intro hadv hcnt
    simp [waitCheck, hadv, hcnt]
  · intro hadv hcnt
    simp [waitCheck, hadv, hcnt]
  · intro s1 hchk
    simp [waitStep, hchk]
  · exact fun s1 t rest hstep => fwWait_cons_sleep s s1 now t rest hstep

theorem waitBlocked_result (m : BlockMap) (key : String)
    (sched : List (Int × Bool)) (m' : BlockMap) (b : Bool)
    (h : waitBlocked m key sched = some (m', b)) :
    (m' = m ∨ m' = removeBlock m key) ∧ (b = false → m' = m) := by
  induction sched with
  | nil => simp [waitBlocked] at h
  | cons p rest ih =>
    obtain ⟨now, canc⟩ := p
    simp only [waitBlocked] at h
    split at h
    · simp only [Option.some.injEq, Prod.mk.injEq] at h
      obtain ⟨h1, h2⟩ := h
      exact ⟨.inl h1.symm, fun _ => h1.symm⟩
    · split at h
      · simp only [Option.some.injEq, Prod.mk.injEq] at h
        obtain ⟨h1, h2⟩ := h
        refine ⟨.inr h1.symm, fun hb => ?_⟩
        rw [← h2] at hb
        cases hb
      · split at h
        · simp only [Option.some.injEq, Prod.mk.injEq] at h
          obtain ⟨h1, h2⟩ := h
          exact ⟨.inl h1.symm, fun _ => h1.symm⟩
        · exact ih h

theorem evictionOnly_refl (m : BlockMap) : evictionOnly m m :=
  fun _ => .inl rfl

theorem evictionOnly_remove (m : BlockMap) (key : String) :
    evictionOnly m (removeBlock m key) := by
  intro k
  rw [lookupBlock_removeBlock]
  by_cases h : k = key <;> simp [h]

theorem evictionOnly_trans (a b c : BlockMap) (h1 : evictionOnly a b)
    (h2 : evictionOnly b c) : evictionOnly a c := by
  intro k
  cases h2 k with
  | inl h => rw [h]; exact h1 k
  | inr h => exact .inr h

theorem waitBlocked_evictionOnly (m : BlockMap) (key : String)
    (sched : List (Int × Bool)) (m' : BlockMap) (b : Bool)
    (h : waitBlocked m key sched = some (m', b)) : evictionOnly m m' := by
  cases (waitBlocked_result m key sched m' b h).1 with
  | inl h => rw [h]; exact evictionOnly_refl m
  | inr h => rw [h]; exact evictionOnly_remove m key

theorem waitCheck_false_state (s : FWState) (now : Int) (s1 : FWState)
    (h : waitCheck s now = (s1, false)) :
    s1.count ≤ s.count ∧ s1.windowSize = s.windowSize ∧
      s1.limit = s.limit := by
  simp only [waitCheck] at h
  by_cases hadv : s.windowStart < truncTo s.windowSize now
  · rw [if_pos hadv] at h
    split at h
    · simp at h
    · simp only [Prod.mk.injEq] at h
      obtain ⟨h1, -⟩ := h
      subst h1
      simp
  · rw [if_neg hadv] at h
    split at h
    · simp at h
    · simp only [Prod.mk.injEq] at h
      obtain ⟨h1, -⟩ := h
      subst h1
      simp

theorem fwWait_cancelled_state (s : FWState) (sched : List (Int × Bool))
    (s' : FWState) (h : fwWait s sched = .cancelled s') :
    s'.count ≤ s.count ∧ s'.windowSize = s.windowSize ∧
      s'.limit = s.limit := by
  induction sched generalizing s with
  | nil => simp [fwWait] at h
  | cons p rest ih =>
    obtain ⟨now, canc⟩ := p
    rw [fwWait_cons] at h
    split at h
    · simp at h
    · rename_i s1 t heq
      have hs1 : s1.count ≤ s.count ∧ s1.windowSize = s.windowSize ∧
          s1.limit = s.limit := by
        unfold waitStep at heq
        cases hchk : waitCheck s now with
        | mk s1' b =>
          rw [hchk] at heq
          cases b
          · simp only [WaitStep.sleepUntil.injEq] at heq
            exact heq.1 ▸ waitCheck_false_state s now s1' hchk
          · simp at heq
      split at h
      · have := ih s1 h
        exact ⟨le_trans this.1 hs1.1, this.2.1.trans hs1.2.1,
          this.2.2.trans hs1.2.2⟩
      · split at h
        · simp only [FWWaitResult.cancelled.injEq] at h
          exact h ▸ hs1
        · have := ih s1 h
          exact ⟨le_trans this.1 hs1.1, this.2.1.trans hs1.2.1,
            this.2.2.trans hs1.2.2⟩

theorem observe_other_status (m : BlockMap) (now : Int)
    (matched : Option Route) (status : Nat) (ra : RetryAfterHeader)
    (h1 : status ≠ 429) (h2 : status ≠ 418) :
    observe m now matched status ra = m := by
  simp [observe, h1, h2]

theorem doSend_not_wait (m2 : BlockMap) (s s2 : FWState) (inp : DoInput) :
    (doSend m2 s s2 inp).res ≠ .cancelled ∧
      (doSend m2 s s2 inp).res ≠ .sleeping := by
  unfold doSend
  cases htr : inp.transport with
  | error e => simp
  | ok p =>
    obtain ⟨st, ra⟩ := p
    simp

theorem doStage4_cancelled (m2 : BlockMap) (s : FWState) (g : GovState)
    (inp : DoInput) (out : DoOut) (h : doStage4 m2 s g inp = out)
    (hres : out.res = .cancelled) :
    out.sentBlocked = none ∧ out.final.blocked = m2 := by
  unfold doStage4 at h
  split at h
  · exact absurd (h ▸ hres) (doSend_not_wait m2 s g.routeLim inp).1
  · split at h
    · rw [← h] at hres
      simp at hres
    · rw [← h]
      exact ⟨rfl, rfl⟩
    · exact absurd (h ▸ hres) (doSend_not_wait m2 s _ inp).1

theorem doStage3_cancelled (m2 : BlockMap) (g : GovState) (inp : DoInput)
    (out : DoOut) (h : doStage3 m2 g inp = out) (hres : out.res = .cancelled) :
    out.sentBlocked = none ∧ out.final.blocked = m2 := by
  unfold doStage3 at h
  split at h
  · rw [← h] at hres
    simp at hres
  · rw [← h]
    exact ⟨rfl, rfl⟩
  · exact doStage4_cancelled m2 _ g inp out h hres

theorem doStage2_cancelled (m1 : BlockMap) (g : GovState) (inp : DoInput)
    (out : DoOut) (h : doStage2 m1 g inp = out) (hres : out.res = .cancelled) :
    out.sentBlocked = none ∧ evictionOnly m1 out.final.blocked := by
  unfold doStage2 at h
  split at h
  · have := doStage3_cancelled m1 g inp out h hres
    exact ⟨this.1, this.2 ▸ evictionOnly_refl m1⟩
  · rename_i r hm
    split at h
    · rw [← h] at hres
      simp at hres
    · rename_i m2 hwb
      rw [← h]
      exact ⟨rfl, waitBlocked_evictionOnly m1 r.name inp.routeBlockSched m2
        false hwb⟩
    · rename_i m2 hwb
      have := doStage3_cancelled m2 g inp out h hres
      exact ⟨this.1, this.2 ▸ waitBlocked_evictionOnly m1 r.name
        inp.routeBlockSched m2 true hwb⟩

theorem doModel_cancelled (g : GovState) (inp : DoInput) (out : DoOut)
    (h : doModel g inp = out) (hres : out.res = .cancelled) :
    out.sentBlocked = none ∧ evictionOnly g.blocked out.final.blocked := by
  unfold doModel at h
  split at h
  · rw [← h] at hres
    simp at hres
  · rename_i m1 hwb
    rw [← h]
    exact ⟨rfl, waitBlocked_evictionOnly g.blocked "tier" inp.tierBlockSched
      m1 false hwb⟩
  · rename_i m1 hwb
    have := doStage2_cancelled m1 g inp out h hres
    exact ⟨this.1, evictionOnly_trans g.blocked m1 out.final.blocked
      (waitBlocked_evictionOnly g.blocked "tier" inp.tierBlockSched m1 true
        hwb) this.2⟩

/-- C5: a context cancellation during any of the four wait points makes
`Do` return the cancellation error without ever handing the request to
the underlying transport; the block map can have changed only by lazy
eviction; a block-wait that returns the cancellation error leaves the
map exactly as it found it, and a limiter wait that returns it has
granted no admission (the count never grows). -/
theorem do_cancellation_aborts (g : GovState) (inp : DoInput) :
    (cancelSignal g inp → (doModel g inp).res = .cancelled) ∧
    (∀ out, doModel g inp = out → out.res = .cancelled →
      out.sentBlocked = none ∧ evictionOnly g.blocked out.final.blocked) ∧
    (∀ (m : BlockMap) (key : String) (sched : List (Int × Bool)) m',
      waitBlocked m key sched = some (m', false) → m' = m) ∧
    (∀ (s : FWState) (sched : List (Int × Bool)) s',
      fwWait s sched = .cancelled s' →
      s'.count ≤ s.count ∧ s'.windowSize = s.windowSize ∧
        s'.limit = s.limit) := by
  refine ⟨?_, fun out h hres => doModel_cancelled g inp out h hres,
    fun m key sched m' h => (waitBlocked_result m key sched m' false h).2 rfl,
    fun s sched s' h => fwWait_cancelled_state s sched s' h⟩
  intro hc
  rcases hc with ⟨m1, h1⟩ | ⟨m1, r, m2, h1, hm, h2⟩ |
    ⟨m2, ⟨m1, h1, hrest⟩, s, h3⟩ | ⟨m2, ⟨m1, h1, hrest⟩, ⟨s, t, h3⟩,
      ⟨r, hm⟩, s2, h4⟩
  · simp [doModel, h1]
  · simp [doModel, doStage2, h1, hm, h2]
  · rcases hrest with ⟨hm, rfl⟩ | ⟨r, hm, h2⟩
    · simp [doModel, doStage2, doStage3, h1, hm, h3]
    · simp [doModel, doStage2, doStage3, h1, hm, h2, h3]
  · rcases hrest with ⟨hm', rfl⟩ | ⟨r', hm', h2⟩
    · rw [hm'] at hm
      cases hm
    · simp [doModel, doStage2, doStage3, doStage4, h1, hm', h2, h3, h4]

theorem do_cancellation_aborts_witness :
    (doModel ⟨[("tier", 100)], newFixedWindowLimiter 60 5,
        newFixedWindowLimiter 10 40⟩
      ⟨some ⟨"smart_trades", 10⟩, [(40, true)], [], [], [],
        .ok (200, .absent), 40⟩).res = .cancelled := by
  exact (do_cancellation_aborts ⟨[("tier", 100)], newFixedWindowLimiter 60 5,
      newFixedWindowLimiter 10 40⟩
      ⟨some ⟨"smart_trades", 10⟩, [(40, true)], [], [], [],
        .ok (200, .absent), 40⟩).1
    (.inl ⟨[("tier", 100)], by decide⟩)

theorem doSend_frame (m2 : BlockMap) (s s2 : FWState) (inp : DoInput)
    (out : DoOut) (h : doSend m2 s s2 inp = out)
    (hres : out.res = .transportErr ∨
      ∃ st, out.res = .response st ∧ st ≠ 429 ∧ st ≠ 418) :
    out.sentBlocked = some m2 ∧ out.final.blocked = m2 := by
  unfold doSend at h
  split at h
  · subst h
    exact ⟨rfl, rfl⟩
  · rename_i st ra heq
    subst h
    rcases hres with hres | ⟨st', hst', h429, h418⟩
    · simp at hres
    · simp only [DoRes.response.injEq] at hst'
      subst hst'
      refine ⟨rfl, ?_⟩
      show observe m2 inp.obsNow inp.matched st ra = m2
      exact observe_other_status m2 inp.obsNow inp.matched st ra h429 h418

theorem doStage4_frame (m2 : BlockMap) (s : FWState) (g : GovState)
    (inp : DoInput) (out : DoOut) (h : doStage4 m2 s g inp = out)
    (hres : out.res = .transportErr ∨
      ∃ st, out.res = .response st ∧ st ≠ 429 ∧ st ≠ 418) :
    out.sentBlocked = some m2 ∧ out.final.blocked = m2 := by
  unfold doStage4 at h
  split at h
  · exact doSend_frame m2 s g.routeLim inp out h hres
  · split at h
    · subst h
      simp at hres
    · subst h
      simp at hres
    · exact doSend_frame m2 s _ inp out h hres

theorem doStage3_frame (m2 : BlockMap) (g : GovState) (inp : DoInput)
    (out : DoOut) (h : doStage3 m2 g inp = out)
    (hres : out.res = .transportErr ∨
      ∃ st, out.res = .response st ∧ st ≠ 429 ∧ st ≠ 418) :
    out.sentBlocked = some m2 ∧ out.final.blocked = m2 := by
  unfold doStage3 at h
  split at h
  · subst h
    simp at hres
  · subst h
    simp at hres
  · exact doStage4_frame m2 _ g inp out h hres

theorem doStage2_frame (m1 : BlockMap) (g : GovState) (inp : DoInput)
    (out : DoOut) (h : doStage2 m1 g inp = out)
    (hres : out.res = .transportErr ∨
      ∃ st, out.res = .response st ∧ st ≠ 429 ∧ st ≠ 418) :
    out.sentBlocked = some out.final.blocked ∧
      evictionOnly m1 out.final.blocked := by
  unfold doStage2 at h
  split at h
  · have := doStage3_frame m1 g inp out h hres
    rw [this.1, this.2]
    exact ⟨rfl, this.2 ▸ evictionOnly_refl m1⟩
  · rename_i r hm
    split at h
    · subst h
      simp at hres
    · subst h
      simp at hres
    · rename_i m2 hwb
      have := doStage3_frame m2 g inp out h hres
      rw [this.1, this.2]
      exact ⟨rfl, this.2 ▸ waitBlocked_evictionOnly m1 r.name
        inp.routeBlockSched m2 true hwb⟩

/-- C8: when the transport errors, or returns a response whose status is
neither 429 nor 418, `Do` performs no block-map mutation after the send:
the final block map is exactly the one in force at the moment the
request was handed to the transport, and that map differs from the
initial one only by lazy eviction during the pre-send waits. -/
theorem do_no_mutation_other_status (g : GovState) (inp : DoInput)
    (out : DoOut) (h : doModel g inp = out)
    (hres : out.res = .transportErr ∨
      ∃ st, out.res = .response st ∧ st ≠ 429 ∧ st ≠ 418) :
    out.sentBlocked = some out.final.blocked ∧
      evictionOnly g.blocked out.final.blocked := by
  unfold doModel at h
  split at h
  · subst h
    simp at hres
  · subst h
    simp at hres
  · rename_i m1 hwb
    have := doStage2_frame m1 g inp out h hres
    exact ⟨this.1, evictionOnly_trans g.blocked m1 out.final.blocked
      (waitBlocked_evictionOnly g.blocked "tier" inp.tierBlockSched m1 true
        hwb) this.2⟩

theorem do_no_mutation_other_status_witness :
    (doModel ⟨[], newFixedWindowLimiter 60 5, newFixedWindowLimiter 10 40⟩
      ⟨none, [(1, false)], [], [(1, false)], [], .ok (200, .absent),
        2⟩).sentBlocked =
      some (doModel ⟨[], newFixedWindowLimiter 60 5,
        newFixedWindowLimiter 10 40⟩
        ⟨none, [(1, false)], [], [(1, false)], [], .ok (200, .absent),
          2⟩).final.blocked := by
  exact (do_no_mutation_other_status
    ⟨[], newFixedWindowLimiter 60 5, newFixedWindowLimiter 10 40⟩
    ⟨none, [(1, false)], [], [(1, false)], [], .ok (200, .absent), 2⟩ _ rfl
    (.inr ⟨200, by decide, by decide, by decide⟩)).1
theorem truncTo_mono (w t t' : Int) (hw : 0 < w) (h : t ≤ t') :
    truncTo w t ≤ truncTo w t' := by
  unfold truncTo
  exact mul_le_mul_of_nonneg_left (Int.ediv_le_ediv hw h) (le_of_lt hw)

theorem countWindow_cons (w k t : Int) (l : List Int) :
    countWindow w k (t :: l) =
      (if truncTo w t = k then 1 else 0) + countWindow w k l := by
  by_cases h : truncTo w t = k
  · simp only [countWindow, List.filter_cons, h, if_pos]
    simp [Nat.add_comm]
  · simp [countWindow, List.filter_cons, h]

theorem countWindow_eq_zero (w k : Int) (l : List Int)
    (h : ∀ x ∈ l, truncTo w x ≠ k) : countWindow w k l = 0 := by
  unfold countWindow
  rw [List.filter_eq_nil_iff.mpr (fun a ha => by simpa using h a ha)]
  rfl

theorem admissions_cons (s : FWState) (t : Int) (ts : List Int) :
    admissions s (t :: ts) =
      match waitCheck s t with
      | (s1, true) => t :: admissions s1 ts
      | (s1, false) => admissions s1 ts := rfl

theorem mem_admissions (s : FWState) (ts : List Int) (x : Int)
    (h : x ∈ admissions s ts) : x ∈ ts := by
  induction ts generalizing s with
  | nil => simp [admissions] at h
  | cons t ts ih =>
    simp only [admissions] at h
    split at h
    · rename_i s1 heq
      rcases List.mem_cons.mp h with rfl | h
      · exact List.mem_cons_self x ts
      · exact List.mem_cons_of_mem t (ih s1 h)
    · rename_i s1 heq
      exact List.mem_cons_of_mem t (ih s1 h)

theorem admissions_window_bound (ts : List Int) (s : FWState) (K : Int)
    (hw : 0 < s.windowSize) (hsort : List.Sorted (· ≤ ·) ts)
    (hlb : ∀ t ∈ ts, s.windowStart ≤ truncTo s.windowSize t)
    (hcnt : s.count ≤ s.limit) :
    countWindow s.windowSize K (admissions s ts) +
      (if s.windowStart = K then s.count else 0) ≤ s.limit := by
  induction ts generalizing s with
  | nil =>
    simp only [admissions, countWindow, List.filter, List.length_nil,
      Nat.zero_add]
    split
    · exact hcnt
    · exact Nat.zero_le _
  | cons t ts ih =>
    obtain ⟨hfst, hsort'⟩ := List.sorted_cons.mp hsort
    have hlbt : s.windowStart ≤ truncTo s.windowSize t :=
      hlb t (List.mem_cons_self t ts)
    have htail : ∀ t' ∈ ts, truncTo s.windowSize t ≤ truncTo s.windowSize t' :=
      fun t' ht' => truncTo_mono s.windowSize t t' hw (hfst t' ht')
    by_cases hadv : s.windowStart < truncTo s.windowSize t
    · by_cases hlim : 0 < s.limit
      · -- new window, capacity available: reset then grant
        have hchk : waitCheck s t =
            (⟨s.windowSize, s.limit, truncTo s.windowSize t, 1⟩, true) := by
          simp [waitCheck, hadv, hlim]
        have hadm : admissions s (t :: ts) =
            t :: admissions ⟨s.windowSize, s.limit, truncTo s.windowSize t, 1⟩
              ts := by
          rw [admissions_cons, hchk]
        have hih : countWindow s.windowSize K
            (admissions ⟨s.windowSize, s.limit, truncTo s.windowSize t, 1⟩
              ts) + (if truncTo s.windowSize t = K then 1 else 0) ≤
              s.limit := by
          simpa using ih ⟨s.windowSize, s.limit, truncTo s.windowSize t, 1⟩
            hw hsort' htail hlim
        have hzero : s.windowStart = K →
            countWindow s.windowSize K
              (admissions ⟨s.windowSize, s.limit, truncTo s.windowSize t, 1⟩
                ts) = 0 := by
          intro hws
          refine countWindow_eq_zero _ _ _ (fun x hx => ?_)
          have := htail x (mem_admissions _ ts x hx)
          omega
        rw [hadm, countWindow_cons]
        by_cases hK : truncTo s.windowSize t = K
        · have hwsK : ¬ s.windowStart = K := by omega
          rw [if_pos hK] at hih ⊢
          rw [if_neg hwsK]
          omega
        · rw [if_neg hK] at hih ⊢
          by_cases hws : s.windowStart = K
          · rw [if_pos hws, hzero hws]
            omega
          · rw [if_neg hws]
            omega
      · -- new window, zero limit: reset, no admission
        have hlim0 : s.limit = 0 := by omega
        have hchk : waitCheck s t =
            (⟨s.windowSize, s.limit, truncTo s.windowSize t, 0⟩, false) := by
          simp [waitCheck, hadv, hlim0]
        have hadm : admissions s (t :: ts) =
            admissions ⟨s.windowSize, s.limit, truncTo s.windowSize t, 0⟩
              ts := by
          rw [admissions_cons, hchk]
        have hih : countWindow s.windowSize K
            (admissions ⟨s.windowSize, s.limit, truncTo s.windowSize t, 0⟩
              ts) ≤ s.limit := by
          simpa using ih ⟨s.windowSize, s.limit, truncTo s.windowSize t, 0⟩
            hw hsort' htail (Nat.zero_le _)
        have hzero : s.windowStart = K →
            countWindow s.windowSize K
              (admissions ⟨s.windowSize, s.limit, truncTo s.windowSize t, 0⟩
                ts) = 0 := by
          intro hws
          refine countWindow_eq_zero _ _ _ (fun x hx => ?_)
          have := htail x (mem_admissions _ ts x hx)
          omega
        rw [hadm]
        by_cases hws : s.windowStart = K
        · rw [if_pos hws, hzero hws]
          omega
        · rw [if_neg hws]
          omega
    · -- same window
      have hsame : truncTo s.windowSize t = s.windowStart := by omega
      by_cases hcl : s.count < s.limit
      · have hchk : waitCheck s t =
            (⟨s.windowSize, s.limit, s.windowStart, s.count + 1⟩, true) := by
          simp [waitCheck, hadv, hcl]
        have hadm : admissions s (t :: ts) =
            t :: admissions ⟨s.windowSize, s.limit, s.windowStart,
              s.count + 1⟩ ts := by
          rw [admissions_cons, hchk]
        have hih : countWindow s.windowSize K
            (admissions ⟨s.windowSize, s.limit, s.windowStart, s.count + 1⟩
              ts) + (if s.windowStart = K then s.count + 1 else 0) ≤
              s.limit := by
          simpa using
            ih ⟨s.windowSize, s.limit, s.windowStart, s.count + 1⟩ hw hsort'
              (fun t' ht' => le_trans (le_of_eq hsame.symm) (htail t' ht'))
              hcl
        rw [hadm, countWindow_cons, hsame]
        by_cases hws : s.windowStart = K
        · simp only [if_pos hws] at hih ⊢
          omega
        · simp only [if_neg hws] at hih ⊢
          omega
      · have hchk : waitCheck s t = (s, false) := by
          simp [waitCheck, hadv, hcl]
        have hadm : admissions s (t :: ts) = admissions s ts := by
          rw [admissions_cons, hchk]
        rw [hadm]
        exact ih s hw hsort'
          (fun t' ht' => le_trans (le_of_eq hsame.symm) (htail t' ht')) hcnt

/-- C2, as stated, is false on the code: with a 10-unit window and limit
1 the limiter admits at t = 9 and t = 10 (the last instant of one
aligned window and the first of the next), and the length-10 window
[5, 15) contains both admissions — two admissions in a window of length
`windowSize` against a limit of 1. -/
theorem window_capacity_counterexample :
    admissions (newFixedWindowLimiter 10 1) [9, 10] = [9, 10] ∧
    ((admissions (newFixedWindowLimiter 10 1) [9, 10]).filter
      (fun t => decide (5 ≤ t) && decide (t < 5 + 10))).length = 2 ∧
    ¬ ((admissions (newFixedWindowLimiter 10 1) [9, 10]).filter
      (fun t => decide (5 ≤ t) && decide (t < 5 + 10))).length ≤ 1 := by
  decide

/-- C2 amended to clock-aligned windows: for every aligned window
(every K, counting the timestamps whose truncation to `windowSize` is
K), a limiter configured with limit L admits at most L requests in that
window, along every monotone sequence of critical-section passes — and
under the mutex every concurrent execution is such a sequence. -/
theorem fixed_window_capacity (w : Int) (L : Nat) (ts : List Int) (K : Int)
    (hw : 0 < w) (hsort : List.Sorted (· ≤ ·) ts)
    (hnn : ∀ t ∈ ts, 0 ≤ t) :
    countWindow w K (admissions (newFixedWindowLimiter w L) ts) ≤ L := by
  have hlb : ∀ t ∈ ts, (newFixedWindowLimiter w L).windowStart ≤
      truncTo (newFixedWindowLimiter w L).windowSize t := by
    intro t ht
    show (0 : Int) ≤ truncTo w t
    exact mul_nonneg (le_of_lt hw) (Int.ediv_nonneg (hnn t ht) (le_of_lt hw))
  have h := admissions_window_bound ts (newFixedWindowLimiter w L) K hw hsort
    hlb (Nat.zero_le L)
  simpa [newFixedWindowLimiter] using h

theorem fixed_window_capacity_witness :
    countWindow 10 0 (admissions (newFixedWindowLimiter 10 2) [1, 2, 3]) ≤
      2 := by
  exact fixed_window_capacity 10 2 [1, 2, 3] 0 (by decide) (by decide)
    (by decide)

theorem fixed_window_wait_spec_witness :
    waitCheck ⟨10, 40, 0, 0⟩ 37 = (⟨10, 40, 30, 1⟩, true) ∧
    waitCheck ⟨10, 40, 30, 40⟩ 37 = (⟨10, 40, 30, 40⟩, false) ∧
    waitStep ⟨10, 40, 30, 40⟩ 37 = .sleepUntil ⟨10, 40, 30, 40⟩ 40 ∧
    fwWait ⟨10, 40, 30, 40⟩ [(37, false), (41, false)] =
      fwWait ⟨10, 40, 30, 40⟩ [(41, false)] := by
  refine ⟨?_, ?_, ?_, ?_⟩
  · exact ((fixed_window_wait_spec ⟨10, 40, 0, 0⟩ 37 (by decide)).2.1
      (by decide) (by decide)).trans (by decide)
  · exact ((fixed_window_wait_spec ⟨10, 40, 30, 40⟩ 37 (by decide)).2.2.2.2.1
      (by decide) (by decide)).trans (by decide)
  · exact ((fixed_window_wait_spec ⟨10, 40, 30, 40⟩ 37
      (by decide)).2.2.2.2.2.1 ⟨10, 40, 30, 40⟩ (by decide)).trans (by decide)
  · exact (fixed_window_wait_spec ⟨10, 40, 30, 40⟩ 37
      (by decide)).2.2.2.2.2.2 ⟨10, 40, 30, 40⟩ 40 [(41, false)] (by decide)

end ThreeCommas
